import Mathlib

/-!
Verification of the zos deployment reconciler against its specification.

This development shallowly embeds the data model and operations of
`packages/cli/src/models/files/ZosNetworkFile.ts` (the deployment record),
`packages/cli/src/models/network/NetworkController.ts` (the reconciler) and
`packages/cli/src/models/dependency/Dependency.ts` (version satisfaction).

Conventions of the embedding:
- JavaScript objects used as string-keyed maps become association lists
  `List (String × α)`; JSON objects have unique keys, and assignment
  (`obj[k] = v`) is `setKey` (replace the first binding or append), deletion
  (`delete obj[k]`) is `eraseKey`.
- A JS value that may be `undefined` becomes an `Option`.
- External collaborators (the zos-lib backend, web3, the bytecode digest,
  the local build artifacts) are opaque functions collected in an `Env`
  record; the reconciler is parameterised over them, exactly as the spec
  treats them as an opaque Deployment Backend and Bytecode Oracle.
- Fallible operations return `Except String`, carrying the thrown message.
-/

namespace Zos

/-- Association-list lookup, modelling JS property access `obj[k]`
(`undefined` when the key is absent). -/
def alookup (k : String) : List (String × α) → Option α
  | [] => none
  | (k2, v) :: rest => if k2 = k then some v else alookup k rest

/-- Association-list assignment, modelling `obj[k] = v`: replace the first
binding of `k` if present, otherwise append a new binding (JS insertion
order). -/
def setKey (k : String) (v : α) : List (String × α) → List (String × α)
  | [] => [(k, v)]
  | (k2, v2) :: rest =>
    if k2 = k then (k, v) :: rest else (k2, v2) :: setKey k v rest

/-- Association-list deletion, modelling `delete obj[k]`. -/
def eraseKey (k : String) (l : List (String × α)) : List (String × α) :=
  l.filter (fun kv => kv.1 ≠ k)

/-- Proxy kinds, from `scripts/interfaces.ts` (not under `src/`).
Modelled from the spec: two proxy kinds, "upgradeable" (admin-controlled)
and "minimal" (non-upgradeable clone). -/
inductive ProxyType where
  | Upgradeable
  | Minimal
deriving DecidableEq

/-- One entry of the record's `contracts` (or `solidityLibs`) map:
`{ address, constructorCode, localBytecodeHash, deployedBytecodeHash,
bodyBytecodeHash }`.  All fields are optional in `ContractInterface`; the
opaque `types/storage/warnings` blobs are not modelled. -/
structure ContractEntry where
  address : Option String := none
  constructorCode : Option String := none
  localBytecodeHash : Option String := none
  deployedBytecodeHash : Option String := none
  bodyBytecodeHash : Option String := none
deriving DecidableEq

/-- Lodash `isEmpty` on a JSON-loaded contract entry: true when the object
has no keys, i.e. every modelled field is absent. -/
def ContractEntry.isEmptyEntry (e : ContractEntry) : Bool :=
  e.address.isNone && e.constructorCode.isNone && e.localBytecodeHash.isNone
    && e.deployedBytecodeHash.isNone && e.bodyBytecodeHash.isNone

/-- One stored element of a `proxies` bucket:
`{ address, version, implementation, admin, kind }`. -/
structure ProxyEntry where
  address : Option String := none
  version : Option String := none
  implementation : Option String := none
  admin : Option String := none
  kind : Option ProxyType := none
deriving DecidableEq

/-- A proxy as returned by `getProxies`: the stored entry extended with the
`package`/`contract` parsed from its bucket's full name, and the `kind`
defaulted to `Upgradeable`. -/
structure FlatProxy where
  package : Option String := none
  contract : Option String := none
  address : Option String := none
  version : Option String := none
  implementation : Option String := none
  admin : Option String := none
  kind : ProxyType := ProxyType.Upgradeable
deriving DecidableEq

/-- One entry of the record's `dependencies` map. -/
structure DependencyEntry where
  package : Option String := none
  version : Option String := none
  customDeploy : Option Bool := none
deriving DecidableEq

/-- The persisted per-network deployment record (`this.data` of
`ZosNetworkFile`).  The singleton address records (`proxyAdmin`,
`proxyFactory`, `app`, `package`, `provider`) are modelled by their
`address` field. -/
structure ZosNetworkFileData where
  contracts : List (String × ContractEntry) := []
  solidityLibs : List (String × ContractEntry) := []
  proxies : List (String × List ProxyEntry) := []
  zosversion : String := ""
  version : Option String := none
  frozen : Option Bool := none
  dependencies : List (String × DependencyEntry) := []
  proxyAdmin : Option String := none
  proxyFactory : Option String := none
  app : Option String := none
  package : Option String := none
  provider : Option String := none
deriving DecidableEq

/-- Modelled from the spec: the Manifest (`ZosPackageFile`, not under
`src/`) — package name, version, contract aliases to contract names,
dependency name to version requirement, and the published flag. -/
structure ZosPackageFileData where
  name : String := ""
  version : String := ""
  contracts : List (String × String) := []
  dependencies : List (String × String) := []
  isPublished : Bool := false
deriving DecidableEq

/-- A compiled contract artifact as produced by `Contracts.getFromLocal`:
its name and (unlinked) bytecode. -/
structure ContractClass where
  contractName : String := ""
  bytecode : String := ""
deriving DecidableEq

/-- The opaque external collaborators: the build-artifact store, the
Bytecode Oracle, web3 address normalisation, and the Deployment Backend
reads used by proxy upgrade. -/
structure Env where
  getFromLocal : String → ContractClass
  bytecodeDigest : String → String
  getSolidityLibNames : String → List String
  toChecksumAddress : String → String
  implementationAt : Option String → String
  projectImplementation : Option String → Option String → String
  getDependencyVersion : Option String → String
  semanticVersionToString : String → String

/-- The state a `NetworkController` closes over: the environment, the
manifest and the deployment record. -/
structure Controller where
  env : Env
  packageFile : ZosPackageFileData
  networkFile : ZosNetworkFileData

/-- Split a character run on a separator character. -/
def splitOnChar (sep : Char) : List Char → List (List Char)
  | [] => [[]]
  | c :: rest =>
    match splitOnChar sep rest with
    | [] => [[]]
    | part :: parts =>
      if c = sep then [] :: part :: parts else (c :: part) :: parts

/-- Join character runs with a separator character. -/
def joinChar (sep : Char) : List (List Char) → List Char
  | [] => []
  | [p] => p
  | p :: rest => p ++ sep :: joinChar sep rest

/-- Modelled from the spec: `utils/naming.fromContractFullName` (not under
`src/`) — split a proxies-bucket key `package/contract` at its last slash
into the package and contract parts; a bare name has no package part. -/
def fromContractFullName (s : String) : Option String × Option String :=
  if s.isEmpty then (none, none)
  else
    match (splitOnChar ('/') s.toList).reverse with
    | [] => (none, none)
    | [c] => (none, some (String.mk c))
    | c :: rest =>
      (some (String.mk (joinChar ('/') rest.reverse)), some (String.mk c))

/-- Modelled from the spec: `utils/naming.toContractFullName` (not under
`src/`) — join a package and contract name into a bucket key; absent
package yields the bare contract name. -/
def toContractFullName (pkg contract : Option String) : String :=
  match pkg with
  | none => contract.getD ""
  | some p => p ++ "/" ++ contract.getD ""

/-- `ZosNetworkFile.contract(alias)`: raw lookup in the contracts map. -/
def contractOf (nf : ZosNetworkFileData) (anAlias : String) :
    Option ContractEntry :=
  alookup anAlias nf.contracts

/-- `ZosNetworkFile.solidityLib(libName)`: raw lookup in the solidityLibs
map. -/
def solidityLibOf (nf : ZosNetworkFileData) (libName : String) :
    Option ContractEntry :=
  alookup libName nf.solidityLibs

/-- `ZosNetworkFile.hasContract(alias) = !isEmpty(this.contract(alias))`. -/
def hasContract (nf : ZosNetworkFileData) (anAlias : String) : Bool :=
  match contractOf nf anAlias with
  | some e => !e.isEmptyEntry
  | none => false

/-- `ZosNetworkFile.hasSolidityLib(libName)`. -/
def hasSolidityLib (nf : ZosNetworkFileData) (libName : String) : Bool :=
  match solidityLibOf nf libName with
  | some e => !e.isEmptyEntry
  | none => false

/-- `ZosNetworkFile.hasSameBytecode(alias, klass)`: look the alias up in
`contracts`, falling back to `solidityLibs` (the `||` in the source), and
compare the recorded `localBytecodeHash` with the digest of the artifact's
bytecode.  When neither map has the alias the source returns `undefined`,
which is falsy; the embedding returns `false`. -/
def hasSameBytecode (nf : ZosNetworkFileData) (env : Env) (anAlias : String)
    (klass : ContractClass) : Bool :=
  match (contractOf nf anAlias).orElse (fun _ => solidityLibOf nf anAlias) with
  | some c => c.localBytecodeHash == some (env.bytecodeDigest klass.bytecode)
  | none => false


/-- Filter argument of `getProxies`: the four optional AND-combined
criteria.  An absent field matches everything (JS falsiness of the
destructured filter fields). -/
structure ProxyFilter where
  package : Option String := none
  contract : Option String := none
  address : Option String := none
  kind : Option ProxyType := none

/-- One flattened proxy of `getProxies`: spread of
`fromContractFullName(fullname)`, then the stored entry, with `kind`
defaulted to `Upgradeable` (`proxyInfo.kind || ProxyType.Upgradeable`). -/
def flattenProxy (fullname : String) (e : ProxyEntry) : FlatProxy :=
  let nm := fromContractFullName fullname
  { package := nm.1
    contract := nm.2
    address := e.address
    version := e.version
    implementation := e.implementation
    admin := e.admin
    kind := e.kind.getD ProxyType.Upgradeable }

/-- One AND-branch of the `getProxies` filter: `!field || proxy.field ===
field`. -/
def matchOptField (f : Option String) (v : Option String) : Bool :=
  match f with
  | none => true
  | some s => v == some s

/-- The whole `getProxies` filter predicate. -/
def proxyFilterPred (f : ProxyFilter) (p : FlatProxy) : Bool :=
  matchOptField f.package p.package && matchOptField f.contract p.contract
    && matchOptField f.address p.address
    && (match f.kind with
        | none => true
        | some k => p.kind == k)

/-- `ZosNetworkFile.getProxies(filter)`: short-circuit on an empty proxies
map, flatten every bucket (tagging entries with the parsed full name and
the defaulted kind), then filter. -/
def getProxies (nf : ZosNetworkFileData) (f : ProxyFilter) : List FlatProxy :=
  if nf.proxies.isEmpty then []
  else
    let allProxies :=
      nf.proxies.flatMap (fun kv => kv.2.map (flattenProxy kv.1))
    allProxies.filter (proxyFilterPred f)

/-- Lodash `findIndex(list, { address })` matcher: the element's `address`
property equals the probe.  For JSON-loaded entries an absent probe or an
absent property can never match (lodash `matches` with an `undefined`
source value requires the key to be explicitly present). -/
def addrMatches (e : ProxyEntry) (address : Option String) : Bool :=
  match e.address, address with
  | some b, some a => b == a
  | _, _ => false

/-- `ZosNetworkFile._proxiesOf(fullname)`: the bucket, or `[]`. -/
def proxiesOf (nf : ZosNetworkFileData) (fullname : String) :
    List ProxyEntry :=
  (alookup fullname nf.proxies).getD []

/-- `ZosNetworkFile._indexOfProxy(fullname, address) =
findIndex(this.data.proxies[fullname], { address })`; the source's `-1`
(also returned when the bucket is absent) is `none` here. -/
def indexOfProxy (nf : ZosNetworkFileData) (fullname : String)
    (address : Option String) : Option Nat :=
  match alookup fullname nf.proxies with
  | none => none
  | some lst => lst.findIdx? (fun e => addrMatches e address)

/-- `ZosNetworkFile.updateProxy({package, contract, address}, fn)`: locate
the proxy by full name and address, throw the NotFound message when the
index is `-1`, otherwise replace exactly the located element by `fn`
applied to it. -/
def updateProxy (nf : ZosNetworkFileData) (pkg contract address : Option String)
    (fn : ProxyEntry → ProxyEntry) : Except String ZosNetworkFileData :=
  let fullname := toContractFullName pkg contract
  match indexOfProxy nf fullname address with
  | none =>
    .error ("Proxy " ++ fullname ++ " at " ++ address.getD ("undefined")
      ++ " not found in network file")
  | some i =>
    let lst := proxiesOf nf fullname
    .ok { nf with
      proxies := setKey fullname (lst.set i (fn (lst.getD i {}))) nf.proxies }

/-- `ZosNetworkFile.removeProxy(thepackage, alias, address)`: silently
return when the proxy is not found; otherwise splice it out and delete the
bucket key when the spliced bucket is empty. -/
def removeProxy (nf : ZosNetworkFileData) (thepackage anAlias address : String) :
    ZosNetworkFileData :=
  let fullname := toContractFullName (some thepackage) (some anAlias)
  match indexOfProxy nf fullname (some address) with
  | none => nf
  | some i =>
    let bucket := (proxiesOf nf fullname).eraseIdx i
    if bucket.isEmpty then { nf with proxies := eraseKey fullname nf.proxies }
    else { nf with proxies := setKey fullname bucket nf.proxies }

/-- `ZosNetworkFile.addProxy(thepackage, alias, info)`: create the bucket
when absent, then push. -/
def addProxy (nf : ZosNetworkFileData) (thepackage anAlias : String)
    (info : ProxyEntry) : ZosNetworkFileData :=
  let fullname := toContractFullName (some thepackage) (some anAlias)
  { nf with proxies := setKey fullname (proxiesOf nf fullname ++ [info]) nf.proxies }

/-- `ZosNetworkFile.setDependency(name, {package, version, customDeploy})`:
build a fresh entry whose `version` is normalised through
`semanticVersionToString` and whose `customDeploy` is set only when the
supplied value is truthy, then assign it, replacing any previous entry
wholesale.  (`semanticVersionToString` of an absent version is absent; an
explicitly `undefined` `customDeploy` key disappears on JSON
serialisation, so it is `none` here.) -/
def setDependency (nf : ZosNetworkFileData) (env : Env) (name : String)
    (args : DependencyEntry) : ZosNetworkFileData :=
  let dependency : DependencyEntry :=
    { package := args.package
      version := args.version.map env.semanticVersionToString
      customDeploy :=
        if args.customDeploy.getD false then args.customDeploy else none }
  { nf with dependencies := setKey name dependency nf.dependencies }

/-- `ZosNetworkFile.hasChanged()`: lodash `isEqual(this.data,
parseJsonIfExists(this.fileName))` negated — `stored` is the current
durable content of the record file (`none` when the file does not exist,
in which case `isEqual` is false against the in-memory object). -/
def hasChanged (data : ZosNetworkFileData)
    (stored : Option ZosNetworkFileData) : Bool :=
  !(stored == some data)

/-- `ZosNetworkFile.write()`: write `this.data` to the file only when
`hasChanged()`.  The result is (whether a write happened, the file's
content afterwards). -/
def write (data : ZosNetworkFileData) (stored : Option ZosNetworkFileData) :
    Bool × Option ZosNetworkFileData :=
  if hasChanged data stored then (true, some data) else (false, stored)

/-- JS truthiness of an optional string: `undefined` and `""` are falsy. -/
def strTruthy : Option String → Bool
  | none => false
  | some s => !s.isEmpty

/-- Decimal parsing of one version component: a nonempty all-digit
character run. -/
def digitsToNat? (cs : List Char) : Option Nat :=
  match cs with
  | [] => none
  | _ =>
    cs.foldl
      (fun acc c =>
        match acc with
        | none => none
        | some n => if c.isDigit then some (n * 10 + (c.toNat - 48)) else none)
      (some 0)


/-- Modelled from the spec: the external semver library's `coerce`,
restricted to dotted numeric versions — parse up to three dot-separated
numeric components into a canonical numeric triple, missing components
defaulting to zero, anything non-numeric coercing to nothing. -/
def coerceChars (cs : List Char) : Option (Nat × Nat × Nat) :=
  match ((splitOnChar ('.') cs).map digitsToNat?) with
  | some a :: rest =>
    match rest with
    | [] => some (a, 0, 0)
    | some b :: rest2 =>
      match rest2 with
      | [] => some (a, b, 0)
      | some c :: _ => some (a, b, c)
      | none :: _ => none
    | none :: _ => none
  | _ => none

/-- `semver.coerce` on a version string. -/
def semverCoerce (s : String) : Option (Nat × Nat × Nat) :=
  coerceChars s.toList

/-- Lexicographic order on version triples. -/
def tripleLe (a b : Nat × Nat × Nat) : Bool :=
  if a.1 ≠ b.1 then decide (a.1 < b.1)
  else if a.2.1 ≠ b.2.1 then decide (a.2.1 < b.2.1)
  else decide (a.2.2 ≤ b.2.2)

/-- Caret-range semantics: at least the lower bound, below the next
breaking version (`^a.b.c` keeps the leftmost nonzero component fixed). -/
def caretMatches (lo v : Nat × Nat × Nat) : Bool :=
  tripleLe lo v &&
    (if lo.1 ≠ 0 then v.1 == lo.1
     else if lo.2.1 ≠ 0 then v.1 == 0 && v.2.1 == lo.2.1
     else v == lo)

/-- Modelled from the spec: the external semver library's `satisfies`,
restricted to the range forms the project uses — the empty range (matches
every parsed version), a caret range, and an exact version.  A version
that failed to coerce satisfies nothing (`Range.test` of a null version
is false). -/
def semverSatisfies (v : Option (Nat × Nat × Nat)) (range : String) : Bool :=
  match v with
  | none => false
  | some t =>
    match range.toList with
    | [] => true
    | c :: rest =>
      if c = ('^') then
        match coerceChars rest with
        | some lo => caretMatches lo t
        | none => false
      else
        match coerceChars (c :: rest) with
        | some w => t == w
        | none => false

/-- `Dependency.satisfiesVersion(version, requirement)`:
`!requirement || version === requirement ||
semver.satisfies(semver.coerce(version), requirement)`. -/
def satisfiesVersion (version : String) (requirement : Option String) : Bool :=
  !(strTruthy requirement) || (requirement == some version)
    || semverSatisfies (semverCoerce version) (requirement.getD (""))

/-- Spec-side version-satisfaction predicate, following the claim's words:
the requirement is absent (JS-falsy: `undefined` or the empty string), the
version and requirement are identical strings, or the version coerced to a
canonical numeric triple satisfies the requirement's semantic range. -/
def specSatisfiesVersion (version : String) (requirement : Option String) :
    Prop :=
  requirement = none ∨ requirement = some ("") ∨ requirement = some version
    ∨ (∃ s, requirement = some s
        ∧ semverSatisfies (semverCoerce version) s = true)

/-- `NetworkController.isPublished`: the manifest says published, or the
record has an app address. -/
def isPublished (c : Controller) : Bool :=
  c.packageFile.isPublished || c.networkFile.app.isSome

/-- `NetworkController._newVersionRequired()`: the manifest version differs
from the record's last reconciled version, and the project is published. -/
def newVersionRequired (c : Controller) : Bool :=
  (some c.packageFile.version != c.networkFile.version) && isPublished c

/-- `NetworkController.isLocalContract(alias) =
packageFile.hasContract(alias)` (manifest membership; the manifest
accessor itself is modelled from the spec). -/
def isLocalContract (c : Controller) (anAlias : String) : Bool :=
  (alookup anAlias c.packageFile.contracts).isSome

/-- `NetworkController.isContractDeployed(alias)`. -/
def isContractDeployed (c : Controller) (anAlias : String) : Bool :=
  !isLocalContract c anAlias || hasContract c.networkFile anAlias

/-- `NetworkController.hasContractChanged(alias, contract)` with the
contract artifact supplied (as the push pipeline does): false for a
non-manifest alias, true for an undeployed one, otherwise a bytecode-hash
comparison. -/
def hasContractChanged (c : Controller) (anAlias : String)
    (contract : ContractClass) : Bool :=
  if !isLocalContract c anAlias then false
  else if !isContractDeployed c anAlias then true
  else !hasSameBytecode c.networkFile c.env anAlias contract

/-- `NetworkController._hasChangedLibraries(contract, changedLibraries)`:
the changed libraries' names intersect the library names linked in the
contract's bytecode. -/
def hasChangedLibraries (c : Controller) (contract : ContractClass)
    (changedLibraries : List ContractClass) : Bool :=
  let libNames := c.env.getSolidityLibNames contract.bytecode
  !((changedLibraries.map (fun lc => lc.contractName)).inter libNames).isEmpty

/-- `NetworkController._contractsListForPush(onlyChanged, changedLibraries)`:
pair every manifest alias with its local artifact, then keep those for
which a new version is required, `onlyChanged` is off, the contract has
changed, or one of its libraries has. -/
def contractsListForPush (c : Controller) (onlyChanged : Bool)
    (changedLibraries : List ContractClass) : List (String × ContractClass) :=
  (c.packageFile.contracts.map (fun ac => (ac.1, c.env.getFromLocal ac.2))).filter
    (fun p =>
      newVersionRequired c || !onlyChanged || hasContractChanged c p.1 p.2
        || hasChangedLibraries c p.2 changedLibraries)

/-- Spec-side contract-delta predicate, following the claim's words: a new
package version is required, OR the contract is not yet recorded as
deployed (no nonempty `contracts` entry), OR its current bytecode hash
differs from the recorded `localBytecodeHash`, OR one of the solidity
libraries referenced by its bytecode is in the changed-libraries delta. -/
def specContractNeedsPush (c : Controller) (changedLibraries : List ContractClass)
    (anAlias contractName : String) : Bool :=
  let klass := c.env.getFromLocal contractName
  let digest := c.env.bytecodeDigest klass.bytecode
  newVersionRequired c
    || (match contractOf c.networkFile anAlias with
        | none => true
        | some e => e.isEmptyEntry)
    || (match contractOf c.networkFile anAlias with
        | none => false
        | some e => !(e.localBytecodeHash == some digest))
    || (c.env.getSolidityLibNames klass.bytecode).any
        (fun lib => changedLibraries.any (fun lc => lc.contractName == lib))

/-- The `getProxies` filter `_fetchOwnedProxies` builds: `package:
packageName || (contractAlias ? this.packageFile.name : undefined)`, the
alias, the address, and kind pinned to `Upgradeable`. -/
def fetchFilter (c : Controller)
    (packageName contractAlias proxyAddress : Option String) : ProxyFilter :=
  { package := packageName.orElse
      (fun _ => if contractAlias.isSome then some c.packageFile.name else none)
    contract := contractAlias
    address := proxyAddress
    kind := some ProxyType.Upgradeable }

/-- `_fetchOwnedProxies`' expected owner: `toChecksumAddress(ownerAddress
|| proxyAdminAddress)`, absent when both are. -/
def expectedOwnerOf (c : Controller) (ownerAddress : Option String) :
    Option String :=
  (ownerAddress.orElse (fun _ => c.networkFile.proxyAdmin)).map
    c.env.toChecksumAddress

/-- The ownership filter of `_fetchOwnedProxies`: `!proxy.admin ||
!expectedOwner || toChecksumAddress(proxy.admin) === expectedOwner`. -/
def ownedFilterPred (env : Env) (expectedOwner : Option String)
    (p : FlatProxy) : Bool :=
  p.admin.isNone || expectedOwner.isNone
    || (p.admin.map env.toChecksumAddress == expectedOwner)

/-- `NetworkController._fetchOwnedProxies(packageName, contractAlias,
proxyAddress, ownerAddress)`: query the record, return `[]` when nothing
matches, otherwise keep only owned proxies. -/
def fetchOwnedProxies (c : Controller)
    (packageName contractAlias proxyAddress ownerAddress : Option String) :
    List FlatProxy :=
  let proxies :=
    getProxies c.networkFile (fetchFilter c packageName contractAlias proxyAddress)
  if proxies.isEmpty then []
  else proxies.filter (ownedFilterPred c.env (expectedOwnerOf c ownerAddress))

/-- The backend mutations the batch proxy operations issue. -/
inductive BackendCall where
  | changeProxyAdmin (address : Option String) (newAdmin : String)
  | upgradeProxy (address : Option String)
deriving DecidableEq

/-- Record mutation of one batch task: `updateProxy` on the task's proxy, a
thrown NotFound leaving the record untouched and surfacing the message (as
`allPromisesOrError` collects it). -/
def applyUpdateProxy (nf : ZosNetworkFileData) (p : FlatProxy)
    (fn : ProxyEntry → ProxyEntry) : ZosNetworkFileData × Option String :=
  match updateProxy nf p.package p.contract p.address fn with
  | .ok nf2 => (nf2, none)
  | .error e => (nf, some e)

/-- Accumulated effects of a batch proxy operation: backend calls issued,
the evolving record, and the collected per-task errors. -/
structure BatchState where
  calls : List BackendCall := []
  nf : ZosNetworkFileData
  errors : List String := []

/-- One task of a proxy batch: issue the task's backend calls, then apply
its record mutation. -/
def proxyBatchStep (callsFor : FlatProxy → List BackendCall)
    (fnFor : FlatProxy → ProxyEntry → ProxyEntry) (st : BatchState)
    (p : FlatProxy) : BatchState :=
  let r := applyUpdateProxy st.nf p (fnFor p)
  { calls := st.calls ++ callsFor p
    nf := r.1
    errors := st.errors ++ r.2.toList }

/-- A whole proxy batch (`allPromisesOrError` over the per-proxy tasks):
every task runs, mutating only its own proxy, and errors are aggregated
rather than aborting siblings. -/
def runProxyBatch (callsFor : FlatProxy → List BackendCall)
    (fnFor : FlatProxy → ProxyEntry → ProxyEntry) (nf : ZosNetworkFileData)
    (proxies : List FlatProxy) : BatchState :=
  proxies.foldl (proxyBatchStep callsFor fnFor) { nf := nf }

/-- `NetworkController.setProxiesAdmin` followed by `_changeProxiesAdmin`:
fetch the owned proxies, return immediately when there are none, otherwise
for each one call the backend `changeProxyAdmin` and set the record
entry's `admin`.  The schema-migration and `fetchOrDeploy` steps are
modelled for a record at the current schema version, where they do not
touch the proxies; the backend call itself is assumed to succeed. -/
def setProxiesAdmin (c : Controller)
    (packageName contractAlias proxyAddress : Option String)
    (newAdmin : String) : BatchState :=
  let proxies := fetchOwnedProxies c packageName contractAlias proxyAddress none
  if proxies.isEmpty then { nf := c.networkFile }
  else
    runProxyBatch
      (fun p => [BackendCall.changeProxyAdmin p.address newAdmin])
      (fun _ e => { e with admin := some newAdmin })
      c.networkFile proxies

/-- `_upgradeProxy`'s implementation resolution: compare the proxy's
on-chain implementation with the project's, returning the recorded new
implementation and whether a backend upgrade call is issued. -/
def upgradeProxyNewImplementation (c : Controller) (p : FlatProxy) :
    String × Bool :=
  let currentImplementation := c.env.implementationAt p.address
  let contractImplementation := c.env.projectImplementation p.package p.contract
  if currentImplementation ≠ contractImplementation then
    (contractImplementation, true)
  else (currentImplementation, false)

/-- `_upgradeProxy`'s package version: the record's current version for a
local proxy, the backend dependency version otherwise. -/
def upgradePackageVersion (c : Controller) (p : FlatProxy) : Option String :=
  if p.package == some c.packageFile.name then c.networkFile.version
  else some (c.env.getDependencyVersion p.package)

/-- `NetworkController.upgradeProxies` followed by `_upgradeProxy` on each
owned proxy: upgrade out-of-date proxies via the backend, and refresh every
fetched proxy's recorded `implementation` and `version`.  Modelled under
the same external assumptions as `setProxiesAdmin`. -/
def upgradeProxies (c : Controller)
    (packageName contractAlias proxyAddress : Option String) : BatchState :=
  let proxies := fetchOwnedProxies c packageName contractAlias proxyAddress none
  if proxies.isEmpty then { nf := c.networkFile }
  else
    runProxyBatch
      (fun p =>
        if (upgradeProxyNewImplementation c p).2 then
          [BackendCall.upgradeProxy p.address]
        else [])
      (fun p e =>
        { e with
          implementation := some (upgradeProxyNewImplementation c p).1
          version := (upgradePackageVersion c p).map
            c.env.semanticVersionToString })
      c.networkFile proxies

/-- JS truthiness of the salt parameter: `undefined` and `""` are falsy. -/
def saltTruthy : Option String → Bool
  | none => false
  | some s => !s.isEmpty

/-- The backend creation call `createProxyInstance` dispatches to. -/
inductive CreateProxyCall where
  | createProxyWithSalt (salt : String) (signature : Option String)
  | createProxy
  | createMinimalProxy
deriving DecidableEq

/-- The error thrown for a salted minimal-proxy creation. -/
def minimalSaltErrorMessage : String :=
  "Cannot create a minimal proxy with a precomputed address, use an Upgradeable proxy instead."

/-- `NetworkController.createProxyInstance(kind, salt, ...)`: dispatch on
the proxy kind; an upgradeable proxy uses the salted creation when a salt
is supplied; a minimal proxy with a salt throws before any backend call;
an absent kind hits the `default` branch and throws. -/
def createProxyInstance (kind : Option ProxyType) (salt : Option String)
    (signature : Option String) : Except String CreateProxyCall :=
  match kind with
  | some ProxyType.Upgradeable =>
    .ok (if saltTruthy salt then
          CreateProxyCall.createProxyWithSalt (salt.getD ("")) signature
        else CreateProxyCall.createProxy)
  | some ProxyType.Minimal =>
    if saltTruthy salt then .error minimalSaltErrorMessage
    else .ok CreateProxyCall.createMinimalProxy
  | none => .error ("Unknown proxy type undefined")

/-- The record-affecting control flow of `NetworkController.createProxy`:
the backend creation (`createProxyInstance`) runs inside the `try` before
`addProxy`, so a creation failure records nothing.  The external steps
(schema migration, `fetchOrDeploy`, initializer check, truffle
bookkeeping) are opaque; the resolved instance address, implementation
address and package version are inputs. -/
def createProxyModel (c : Controller) (packageName contractAlias : String)
    (admin : Option String) (kind : Option ProxyType)
    (salt signature : Option String)
    (instanceAddress implementationAddress packageVersion : String) :
    Except String (CreateProxyCall × ZosNetworkFileData) :=
  match createProxyInstance kind salt signature with
  | .error e => .error e
  | .ok call =>
    .ok (call, addProxy c.networkFile packageName contractAlias
      { address := some instanceAddress
        version := some (c.env.semanticVersionToString packageVersion)
        implementation := some implementationAddress
        admin := admin.orElse (fun _ => c.networkFile.proxyAdmin)
        kind := kind })

/-- An entry is unowned for a given expected admin exactly when it records
an admin whose checksum differs from the (present) expected admin. -/
def unownedEntry (env : Env) (expectedOwner : Option String)
    (e : ProxyEntry) : Prop :=
  ∃ ea eo, e.admin = some ea ∧ expectedOwner = some eo
    ∧ env.toChecksumAddress ea ≠ eo

/-- All proxy entries of the record, across every bucket. -/
def allProxyEntries (nf : ZosNetworkFileData) : List ProxyEntry :=
  nf.proxies.flatMap (fun kv => kv.2)

/-- Record well-formedness: no two recorded proxies share an address (a
proxy's on-chain address identifies it uniquely). -/
def distinctProxyAddresses (nf : ZosNetworkFileData) : Prop :=
  ((allProxyEntries nf).map (fun e => e.address)).Nodup

/-- Bucket-by-bucket, entry-by-entry relation between a proxies map and
its successor: keys are unchanged and every entry either survives
verbatim or was eligible for the batch (not unowned). -/
def preservesUnowned (env : Env) (expectedOwner : Option String)
    (P Q : List (String × List ProxyEntry)) : Prop :=
  List.Forall₂
    (fun a b => a.1 = b.1
      ∧ List.Forall₂
          (fun e e2 => e2 = e ∨ ¬unownedEntry env expectedOwner e) a.2 b.2)
    P Q

/-- Bucket-by-bucket, entry-by-entry relation: every entry either survives
verbatim or carries one of the given addresses. -/
def mutatesOnlyAddresses (owned : List (Option String))
    (P Q : List (String × List ProxyEntry)) : Prop :=
  List.Forall₂
    (fun a b => a.1 = b.1
      ∧ List.Forall₂
          (fun e e2 => e2 = e ∨ (e.address.isSome ∧ e.address ∈ owned))
          a.2 b.2)
    P Q

/-- A concrete environment for evaluating the models on closed inputs:
the digest and checksum are the identity, an artifact's bytecode is its
name. -/
def testEnv : Env :=
  { getFromLocal := fun n => { contractName := n, bytecode := n }
    bytecodeDigest := fun s => s
    getSolidityLibNames := fun _ => []
    toChecksumAddress := fun s => s
    implementationAt := fun _ => ""
    projectImplementation := fun _ _ => ""
    getDependencyVersion := fun _ => ""
    semanticVersionToString := fun s => s }

/-- A record with two proxies of the same contract sharing one address,
one owned by the registered proxy admin and one not. -/
def c2dup : Controller :=
  { env := testEnv
    packageFile := { name := ("proj"), version := ("1.0.0") }
    networkFile :=
      { proxies := [(("proj/Foo"),
          [{ address := some ("0xAAA"), admin := some ("0xBAD") },
           { address := some ("0xAAA"), admin := some ("0xGOOD") }])]
        proxyAdmin := some ("0xGOOD") } }

/-- A record with one minimal and one (implicitly) upgradeable proxy. -/
def c10rec : Controller :=
  { env := testEnv
    packageFile := { name := ("proj"), version := ("1.0.0") }
    networkFile :=
      { proxies := [(("proj/Foo"),
          [{ address := some ("0xAAA"), kind := some ProxyType.Minimal },
           { address := some ("0xBBB") }])]
        proxyAdmin := some ("0xGOOD") } }

/-! ## General lemmas about the association-list model -/

theorem alookup_setKey_self (k : String) (v : α) (l : List (String × α)) :
    alookup k (setKey k v l) = some v := by
  induction l with
  | nil => simp [setKey, alookup]
  | cons kv rest ih =>
    by_cases h : kv.1 = k
    · simp [setKey, h, alookup]
    · simp [setKey, h, alookup, ih]

theorem alookup_setKey_ne (k k2 : String) (v : α) (l : List (String × α))
    (h : k2 ≠ k) : alookup k2 (setKey k v l) = alookup k2 l := by
  induction l with
  | nil =>
    simp only [setKey, alookup]
    rw [if_neg (fun h2 => h h2.symm)]
  | cons kv rest ih =>
    by_cases hk : kv.1 = k
    · simp only [setKey, hk, if_pos rfl, alookup]
      simp only [if_neg (show ¬k = k2 from fun h2 => h h2.symm)]
    · simp [setKey, hk, alookup, ih]

theorem alookup_eraseKey_self (k : String) (l : List (String × α)) :
    alookup k (eraseKey k l) = none := by
  induction l with
  | nil => rfl
  | cons kv rest ih =>
    by_cases h : kv.1 = k
    · simpa [eraseKey, h] using ih
    · simpa [eraseKey, h, alookup] using ih

theorem alookup_isSome_of_mem {k : String} {v : α} {l : List (String × α)}
    (h : (k, v) ∈ l) : (alookup k l).isSome := by
  induction l with
  | nil => cases h
  | cons kv rest ih =>
    by_cases hk : kv.1 = k
    · simp [alookup, hk]
    · rcases List.mem_cons.mp h with h1 | h2
      · exact absurd (congrArg Prod.fst h1).symm hk
      · simp only [alookup, if_neg hk]
        exact ih h2

theorem findIdx?_some_spec {p : α → Bool} {l : List α} {i : Nat}
    (h : l.findIdx? p = some i) : ∃ e, l[i]? = some e ∧ p e = true := by
  rw [List.findIdx?_eq_some_iff_findIdx_eq] at h
  obtain ⟨hlt, hidx⟩ := h
  subst hidx
  refine ⟨l.get ⟨l.findIdx p, hlt⟩, ?_, ?_⟩
  · simp [List.getElem?_eq_getElem hlt, List.get_eq_getElem]
  · simpa [List.get_eq_getElem] using List.findIdx_getElem

/-! ## C4: version satisfaction -/

/-- C4: `Dependency.satisfiesVersion(version, requirement)` is true iff the
requirement is absent (JS-falsy), the version and requirement are
identical strings, or the version coerced to a canonical numeric triple
satisfies the requirement's semantic range; in particular
`satisfiesVersion("2.0.0", "^1.0.0")` is false and
`satisfiesVersion("1.0.0", undefined)` is true. -/
theorem satisfiesVersion_correct :
    (∀ v r, satisfiesVersion v r = true ↔ specSatisfiesVersion v r)
    ∧ satisfiesVersion ("2.0.0") (some ("^1.0.0")) = false
    ∧ satisfiesVersion ("1.0.0") none = true := by
  refine ⟨?_, by decide, by decide⟩
  intro v r
  cases r with
  | none => simp [satisfiesVersion, strTruthy, specSatisfiesVersion]
  | some s =>
    by_cases hs : s = ""
    · subst hs
      constructor
      · intro _
        exact Or.inr (Or.inl rfl)
      · intro _
        rfl
    · have hne : s.isEmpty = false := by
        rw [Bool.eq_false_iff]
        intro h2
        exact hs ((String.isEmpty_iff s).mp h2)
      simp only [satisfiesVersion, strTruthy, hne, Bool.not_false,
        Bool.not_true, Bool.false_or, Option.getD_some, Bool.or_eq_true,
        beq_iff_eq, Option.some.injEq, specSatisfiesVersion,
        reduceCtorEq, false_or, exists_eq_left']
      constructor
      · rintro (h2 | h2)
        · exact Or.inr (Or.inl h2)
        · exact Or.inr (Or.inr h2)
      · rintro (h2 | h2 | h2)
        · exact absurd h2 hs
        · exact Or.inl h2
        · exact Or.inr h2

/-! ## C5: write is skipped when unchanged -/

/-- C5: `write()` performs no file write when the in-memory record
deep-equals the stored snapshot, and writes the record otherwise; an
immediately repeated `write()` therefore never writes. -/
theorem write_skips_unchanged (data : ZosNetworkFileData)
    (stored : Option ZosNetworkFileData) :
    write data stored
      = (if stored = some data then (false, stored) else (true, some data))
    ∧ write data (write data stored).2 = (false, some data) := by
  constructor
  · by_cases h : stored = some data
    · simp [write, hasChanged, beq_iff_eq, h]
    · simp [write, hasChanged, beq_iff_eq, h]
  · by_cases h : stored = some data
    · simp [write, hasChanged, beq_iff_eq, h]
    · simp [write, hasChanged, beq_iff_eq, h]

/-! ## C7: salted minimal-proxy creation fails fast -/

/-- C7: a proxy-creation request of kind "minimal" with a non-empty salt
fails fast with the descriptive error: `createProxy` neither reaches a
backend creation call nor records a proxy. -/
theorem minimal_proxy_salt_rejected (c : Controller)
    (packageName contractAlias : String) (admin : Option String)
    (salt signature : Option String)
    (instanceAddress implementationAddress packageVersion : String)
    (h : saltTruthy salt = true) :
    createProxyModel c packageName contractAlias admin
        (some ProxyType.Minimal) salt signature instanceAddress
        implementationAddress packageVersion
      = .error minimalSaltErrorMessage := by
  simp [createProxyModel, createProxyInstance, h]

/-- Witness for C7 at a concrete salted minimal-proxy request. -/
theorem minimal_proxy_salt_rejected_witness :
    createProxyModel { env := testEnv, packageFile := {}, networkFile := {} }
        ("zos") ("Foo") none (some ProxyType.Minimal) (some ("42")) none
        ("0xA") ("0xB") ("1.0.0")
      = .error minimalSaltErrorMessage :=
  minimal_proxy_salt_rejected _ _ _ _ _ _ _ _ _ (by decide)

/-! ## C9: setDependency stores a normalised, fresh entry -/

/-- C9: `setDependency` stores exactly the supplied package, the version
normalised through `semanticVersionToString`, and `customDeploy` only when
the supplied value is truthy; other dependencies are untouched, and a call
without `customDeploy` replaces a previously flagged entry with an
unflagged one. -/
theorem setDependency_stores_normalized (nf : ZosNetworkFileData) (env : Env)
    (name : String) (args : DependencyEntry) :
    alookup name (setDependency nf env name args).dependencies
      = some { package := args.package
               version := args.version.map env.semanticVersionToString
               customDeploy :=
                 if args.customDeploy.getD false then args.customDeploy
                 else none }
    ∧ (∀ k, k ≠ name →
        alookup k (setDependency nf env name args).dependencies
          = alookup k nf.dependencies)
    ∧ alookup name
        (setDependency nf env name { args with customDeploy := none }).dependencies
      = some { package := args.package
               version := args.version.map env.semanticVersionToString
               customDeploy := none } := by
  refine ⟨?_, ?_, ?_⟩
  · simp [setDependency, alookup_setKey_self]
  · intro k hk
    simp [setDependency, alookup_setKey_ne _ _ _ _ hk]
  · simp [setDependency, alookup_setKey_self]

/-- Witness for C9: updating a dependency previously marked
`customDeploy: true` without the flag clears it, and an unrelated
dependency is untouched. -/
theorem setDependency_stores_normalized_witness :
    (alookup ("mock")
        (setDependency
          { dependencies :=
              [(("mock"), { package := some ("0x1"), version := some ("1.0.0")
                            customDeploy := some true }),
               (("other"), { version := some ("2.0.0") })] }
          testEnv ("mock")
          { package := some ("0x2"), version := some ("1.1.0") }).dependencies
      = some { package := some ("0x2"), version := some ("1.1.0")
               customDeploy := none })
    ∧ alookup ("other")
        (setDependency
          { dependencies :=
              [(("mock"), { package := some ("0x1"), version := some ("1.0.0")
                            customDeploy := some true }),
               (("other"), { version := some ("2.0.0") })] }
          testEnv ("mock")
          { package := some ("0x2"), version := some ("1.1.0") }).dependencies
      = some { version := some ("2.0.0") } :=
  ⟨(setDependency_stores_normalized _ testEnv ("mock")
      { package := some ("0x2"), version := some ("1.1.0") }).1,
   (setDependency_stores_normalized _ testEnv ("mock")
      { package := some ("0x2"), version := some ("1.1.0") }).2.1
     ("other") (by decide)⟩

/-! ## C3: bytecode identity -/

/-- C3 counterexample: `hasSameBytecode` also consults `solidityLibs`.
With no `contracts` entry for the alias but a matching `solidityLibs`
entry, it returns true, while the claim requires false whenever
`contracts[alias]` is absent. -/
theorem hasSameBytecode_contracts_only_refuted :
    hasSameBytecode
        { solidityLibs := [(("Lib"), { localBytecodeHash := some ("0xH") })] }
        testEnv ("Lib") { contractName := ("Lib"), bytecode := ("0xH") }
      = true
    ∧ contractOf
        { solidityLibs := [(("Lib"), { localBytecodeHash := some ("0xH") })] }
        ("Lib") = none := by
  constructor
  · rfl
  · rfl

/-- C3 amended: `hasSameBytecode(alias, artifact)` is true iff the
artifact's bytecode digest equals the recorded `localBytecodeHash` of
`contracts[alias]`, or of `solidityLibs[alias]` when `contracts` has no
entry for the alias; it is false when neither map has an entry. -/
theorem hasSameBytecode_spec (nf : ZosNetworkFileData) (env : Env)
    (anAlias : String) (klass : ContractClass) :
    hasSameBytecode nf env anAlias klass = true
      ↔ ((∃ e, contractOf nf anAlias = some e
            ∧ e.localBytecodeHash = some (env.bytecodeDigest klass.bytecode))
        ∨ (contractOf nf anAlias = none
            ∧ ∃ e, solidityLibOf nf anAlias = some e
              ∧ e.localBytecodeHash
                  = some (env.bytecodeDigest klass.bytecode))) := by
  cases h : contractOf nf anAlias with
  | some e => simp [hasSameBytecode, h, Option.orElse, beq_iff_eq]
  | none =>
    cases h2 : solidityLibOf nf anAlias with
    | some e => simp [hasSameBytecode, h, h2, Option.orElse, beq_iff_eq]
    | none => simp [hasSameBytecode, h, h2, Option.orElse]

/-! ## C8: removeProxy is a silent no-op / prunes empty buckets -/

/-- C8: `removeProxy` leaves the record unchanged (silently, without an
error) when no proxy with the given address is recorded under the full
name, and deletes the now-empty full-name key when it removes the last
proxy of that full name. -/
theorem removeProxy_semantics (nf : ZosNetworkFileData)
    (thepackage anAlias address : String) :
    ((∀ e ∈ proxiesOf nf (toContractFullName (some thepackage) (some anAlias)),
        addrMatches e (some address) = false) →
      removeProxy nf thepackage anAlias address = nf)
    ∧ (∀ e, proxiesOf nf (toContractFullName (some thepackage) (some anAlias))
          = [e] →
        addrMatches e (some address) = true →
        alookup (toContractFullName (some thepackage) (some anAlias))
            (removeProxy nf thepackage anAlias address).proxies = none) := by
  constructor
  · intro hnone
    cases hb : alookup (toContractFullName (some thepackage) (some anAlias))
        nf.proxies with
    | none => simp [removeProxy, indexOfProxy, hb]
    | some lst =>
      have hl : lst.findIdx? (fun e => addrMatches e (some address)) = none := by
        rw [List.findIdx?_eq_none_iff]
        intro e he
        exact hnone e (by simp [proxiesOf, hb, he])
      simp [removeProxy, indexOfProxy, hb, hl]
  · intro e hsingle hmatch
    have hb : alookup (toContractFullName (some thepackage) (some anAlias))
        nf.proxies = some [e] := by
      rcases hb2 : alookup (toContractFullName (some thepackage) (some anAlias))
          nf.proxies with _ | lst
      · rw [proxiesOf, hb2] at hsingle
        simp at hsingle
      · rw [proxiesOf, hb2] at hsingle
        simp only [Option.getD_some] at hsingle
        rw [hsingle]
    have hidx : List.findIdx? (fun e2 => addrMatches e2 (some address)) [e]
        = some 0 := by
      simp [List.findIdx?_cons, hmatch]
    simp only [removeProxy, indexOfProxy, hb, hidx, proxiesOf, Option.getD_some,
      List.eraseIdx]
    simp [alookup_eraseKey_self]

/-! ## C6: updateProxy throws NotFound or replaces exactly one entry -/

/-- C6: `updateProxy` throws the NotFound error when no proxy with the
given address is recorded under the full name; otherwise it replaces
exactly the located entry by `fn` of it, leaving every other index of the
bucket and every other key of the proxies map unchanged. -/
theorem updateProxy_semantics (nf : ZosNetworkFileData)
    (pkg contract address : Option String) (fn : ProxyEntry → ProxyEntry) :
    ((∀ e ∈ proxiesOf nf (toContractFullName pkg contract),
        addrMatches e address = false) →
      updateProxy nf pkg contract address fn
        = .error ("Proxy " ++ toContractFullName pkg contract ++ " at "
            ++ address.getD ("undefined") ++ " not found in network file"))
    ∧ (∀ i, indexOfProxy nf (toContractFullName pkg contract) address = some i →
        ∃ e, (proxiesOf nf (toContractFullName pkg contract))[i]? = some e
          ∧ addrMatches e address = true
          ∧ updateProxy nf pkg contract address fn = .ok
              { nf with proxies :=
                  (setKey (toContractFullName pkg contract)
                    ((proxiesOf nf (toContractFullName pkg contract)).set i (fn e))
                    nf.proxies) }
          ∧ (∀ j, j ≠ i →
              ((proxiesOf nf (toContractFullName pkg contract)).set i (fn e))[j]?
                = (proxiesOf nf (toContractFullName pkg contract))[j]?)
          ∧ (∀ k, k ≠ toContractFullName pkg contract →
              alookup k
                  (setKey (toContractFullName pkg contract)
                    ((proxiesOf nf (toContractFullName pkg contract)).set i (fn e))
                    nf.proxies)
                = alookup k nf.proxies)) := by
  constructor
  · intro hnone
    cases hb : alookup (toContractFullName pkg contract) nf.proxies with
    | none => simp [updateProxy, indexOfProxy, hb]
    | some lst =>
      have hl : lst.findIdx? (fun e => addrMatches e address) = none := by
        rw [List.findIdx?_eq_none_iff]
        intro e he
        exact hnone e (by simp [proxiesOf, hb, he])
      simp [updateProxy, indexOfProxy, hb, hl]
  · intro i hi
    rcases hb : alookup (toContractFullName pkg contract) nf.proxies
        with _ | lst
    · rw [indexOfProxy, hb] at hi
      cases hi
    · have hfind : lst.findIdx? (fun e => addrMatches e address) = some i := by
        rw [indexOfProxy, hb] at hi
        exact hi
      obtain ⟨e, hget, hmatch⟩ := findIdx?_some_spec hfind
      refine ⟨e, ?_, hmatch, ?_, ?_, ?_⟩
      · rw [proxiesOf, hb]
        simpa using hget
      · simp only [updateProxy, indexOfProxy, hb, hfind, proxiesOf,
          Option.getD_some]
        rw [List.getD_eq_getElem?_getD, hget]
        rfl
      · intro j hj
        exact List.getElem?_set_ne (fun h2 => hj h2.symm)
      · intro k hk
        exact alookup_setKey_ne _ _ _ _ hk

/-! ## C1: push-delta correctness -/

/-- Library-delta membership test agrees with the claim's existential
reading. -/
theorem hasChangedLibraries_iff (c : Controller) (klass : ContractClass)
    (changedLibraries : List ContractClass) :
    hasChangedLibraries c klass changedLibraries = true
      ↔ (c.env.getSolidityLibNames klass.bytecode).any
          (fun lib => changedLibraries.any
            (fun lc => lc.contractName == lib)) = true := by
  constructor
  · intro hl
    have hne : (changedLibraries.map (fun lc => lc.contractName)).inter
        (c.env.getSolidityLibNames klass.bytecode) ≠ [] := by
      intro h2
      rw [hasChangedLibraries, h2] at hl
      cases hl
    obtain ⟨x, hx⟩ := List.exists_mem_of_ne_nil _ hne
    rw [List.inter, List.mem_filter] at hx
    obtain ⟨hx1, hx2b⟩ := hx
    have hx2 : x ∈ c.env.getSolidityLibNames klass.bytecode := by
      simpa [List.elem_iff] using hx2b
    obtain ⟨lc, hlc, hname⟩ := List.mem_map.mp hx1
    rw [List.any_eq_true]
    exact ⟨x, hx2, List.any_eq_true.mpr ⟨lc, hlc, by simp [hname]⟩⟩
  · intro hr
    obtain ⟨lib, hlib, hany⟩ := List.any_eq_true.mp hr
    obtain ⟨lc, hlc, hname⟩ := List.any_eq_true.mp hany
    rw [beq_iff_eq] at hname
    have hmem : lib ∈ (changedLibraries.map (fun lc => lc.contractName)).inter
        (c.env.getSolidityLibNames klass.bytecode) := by
      rw [List.inter, List.mem_filter]
      refine ⟨List.mem_map.mpr ⟨lc, hlc, hname⟩, ?_⟩
      simpa [List.elem_iff] using hlib
    rw [hasChangedLibraries]
    simp [List.isEmpty_eq_false, List.ne_nil_of_mem hmem]

/-- C1: a manifest contract appears in the push delta (the
`onlyChanged` pipeline of `_contractsListForPush`) iff a new package
version is required, or it is not recorded as deployed, or its bytecode
hash differs from the recorded `localBytecodeHash`, or one of the
libraries its bytecode references is in the changed-libraries delta. -/
theorem push_delta_correct (c : Controller)
    (changedLibraries : List ContractClass) (anAlias contractName : String)
    (h : (anAlias, contractName) ∈ c.packageFile.contracts) :
    ((anAlias, c.env.getFromLocal contractName)
        ∈ contractsListForPush c true changedLibraries
      ↔ specContractNeedsPush c changedLibraries anAlias contractName = true) := by
  have hloc : isLocalContract c anAlias = true := by
    simpa [isLocalContract] using alookup_isSome_of_mem h
  have hmem : (anAlias, c.env.getFromLocal contractName)
      ∈ c.packageFile.contracts.map
          (fun ac => (ac.1, c.env.getFromLocal ac.2)) := by
    have h2 := List.mem_map_of_mem (fun ac : String × String =>
      (ac.1, c.env.getFromLocal ac.2)) h
    simpa using h2
  have hpred : (newVersionRequired c || !true
        || hasContractChanged c anAlias (c.env.getFromLocal contractName)
        || hasChangedLibraries c (c.env.getFromLocal contractName)
            changedLibraries) = true
      ↔ specContractNeedsPush c changedLibraries anAlias contractName
          = true := by
    cases hb : contractOf c.networkFile anAlias with
    | none =>
      simp [hasContractChanged, hloc, isContractDeployed, hasContract, hb,
        specContractNeedsPush]
    | some e =>
      by_cases he : e.isEmptyEntry = true
      · simp [hasContractChanged, hloc, isContractDeployed, hasContract, hb,
          he, specContractNeedsPush]
      · rw [Bool.not_eq_true] at he
        have hb2 : alookup anAlias c.networkFile.contracts = some e := hb
        have hhc : hasContract c.networkFile anAlias = true := by
          simp [hasContract, contractOf, hb2, he]
        have hchanged : hasContractChanged c anAlias
            (c.env.getFromLocal contractName)
            = !(e.localBytecodeHash
                == some (c.env.bytecodeDigest
                  (c.env.getFromLocal contractName).bytecode)) := by
          simp [hasContractChanged, hloc, isContractDeployed, hhc,
            hasSameBytecode, contractOf, hb2, Option.orElse]
        simp only [hchanged, specContractNeedsPush, contractOf, hb2, he,
          Bool.not_true, Bool.not_false, Bool.or_false, Bool.false_or,
          Bool.or_eq_true, Bool.not_eq_true', hasChangedLibraries_iff]
  rw [contractsListForPush, List.mem_filter]
  constructor
  · rintro ⟨_, hp⟩
    exact hpred.mp (by simpa using hp)
  · intro hs
    exact ⟨hmem, by simpa using hpred.mpr hs⟩

/-! ## C2 and C10: the ownership and kind filters of batch proxy operations -/

theorem mem_getProxies_source {nf : ZosNetworkFileData} {f : ProxyFilter}
    {p : FlatProxy} (h : p ∈ getProxies nf f) :
    ∃ fullname lst e, (fullname, lst) ∈ nf.proxies ∧ e ∈ lst
      ∧ p = flattenProxy fullname e ∧ proxyFilterPred f p = true := by
  by_cases hemp : nf.proxies.isEmpty = true
  · rw [getProxies, if_pos hemp] at h
    cases h
  · rw [getProxies, if_neg hemp] at h
    rw [List.mem_filter] at h
    obtain ⟨hmem, hpred⟩ := h
    rw [List.mem_flatMap] at hmem
    obtain ⟨kv, hkv, hmem2⟩ := hmem
    obtain ⟨e, he, hfe⟩ := List.mem_map.mp hmem2
    exact ⟨kv.1, kv.2, e, by simpa using hkv, he, hfe.symm, hpred⟩

theorem mem_fetchOwnedProxies {c : Controller}
    {pn ca pa oa : Option String} {p : FlatProxy}
    (h : p ∈ fetchOwnedProxies c pn ca pa oa) :
    p ∈ getProxies c.networkFile (fetchFilter c pn ca pa)
      ∧ ownedFilterPred c.env (expectedOwnerOf c oa) p = true := by
  by_cases hemp :
      (getProxies c.networkFile (fetchFilter c pn ca pa)).isEmpty = true
  · rw [fetchOwnedProxies, if_pos hemp] at h
    cases h
  · rw [fetchOwnedProxies, if_neg hemp] at h
    exact List.mem_filter.mp h

theorem flattenProxy_address (fullname : String) (e : ProxyEntry) :
    (flattenProxy fullname e).address = e.address := rfl

theorem flattenProxy_admin (fullname : String) (e : ProxyEntry) :
    (flattenProxy fullname e).admin = e.admin := rfl

theorem fetched_address_not_unowned {c : Controller}
    {pn ca pa oa : Option String}
    (hnd : distinctProxyAddresses c.networkFile)
    {q : ProxyEntry} (hq : q ∈ allProxyEntries c.networkFile)
    (hunq : unownedEntry c.env (expectedOwnerOf c oa) q)
    {p : FlatProxy} (hp : p ∈ fetchOwnedProxies c pn ca pa oa) :
    p.address ≠ q.address := by
  intro heq
  obtain ⟨hpg, hpo⟩ := mem_fetchOwnedProxies hp
  obtain ⟨fullname, lst, e, hkv, he, hpe, _⟩ := mem_getProxies_source hpg
  have heq2 : e.address = q.address := by
    rw [hpe, flattenProxy_address] at heq
    exact heq
  have hemem : e ∈ allProxyEntries c.networkFile :=
    List.mem_flatMap.mpr ⟨(fullname, lst), hkv, he⟩
  have heqq : e = q := List.inj_on_of_nodup_map hnd hemem hq heq2
  obtain ⟨ea, eo, hadm, hexp, hneq⟩ := hunq
  rw [ownedFilterPred, hexp, hpe, flattenProxy_admin, heqq, hadm] at hpo
  simp only [Option.isNone_some, Bool.false_or, beq_iff_eq] at hpo
  exact hneq (by simpa using hpo)

theorem mutatesOnlyAddresses_refl (owned : List (Option String))
    (P : List (String × List ProxyEntry)) : mutatesOnlyAddresses owned P P := by
  rw [mutatesOnlyAddresses]
  refine List.forall₂_same.mpr (fun kv _ => ⟨rfl, ?_⟩)
  exact List.forall₂_same.mpr (fun e _ => Or.inl rfl)

theorem entryStep_trans {owned : List (Option String)}
    {l1 l2 l3 : List ProxyEntry}
    (h1 : List.Forall₂
      (fun e e2 => e2 = e ∨ (e.address.isSome ∧ e.address ∈ owned)) l1 l2)
    (h2 : List.Forall₂
      (fun e e2 => e2 = e ∨ (e.address.isSome ∧ e.address ∈ owned)) l2 l3) :
    List.Forall₂
      (fun e e2 => e2 = e ∨ (e.address.isSome ∧ e.address ∈ owned)) l1 l3 := by
  induction h1 generalizing l3 with
  | nil =>
    cases h2
    exact .nil
  | cons hr htl ih =>
    cases h2 with
    | cons hr2 htl2 =>
      refine .cons ?_ (ih htl2)
      rcases hr with he | hd
      · rcases hr2 with he2 | hd2
        · exact Or.inl (he2.trans he)
        · exact Or.inr (he ▸ hd2)
      · exact Or.inr hd

theorem mutatesOnlyAddresses_trans {owned : List (Option String)}
    {P Q R : List (String × List ProxyEntry)}
    (h1 : mutatesOnlyAddresses owned P Q)
    (h2 : mutatesOnlyAddresses owned Q R) :
    mutatesOnlyAddresses owned P R := by
  rw [mutatesOnlyAddresses] at h1 h2 ⊢
  induction h1 generalizing R with
  | nil =>
    cases h2
    exact .nil
  | cons hr htl ih =>
    cases h2 with
    | cons hr2 htl2 =>
      exact .cons ⟨hr.1.trans hr2.1, entryStep_trans hr.2 hr2.2⟩ (ih htl2)

theorem forall₂_set_of_rel {α : Type} {R : α → α → Prop}
    (hrefl : ∀ e, R e e) (lst : List α) :
    ∀ (i : Nat) (e v : α), lst[i]? = some e → R e v →
      List.Forall₂ R lst (lst.set i v) := by
  induction lst with
  | nil =>
    intro i e v hget
    simp at hget
  | cons a tl ih =>
    intro i e v hget hrel
    cases i with
    | zero =>
      rw [List.getElem?_cons_zero] at hget
      injection hget with hae
      rw [List.set_cons_zero]
      exact .cons (hae.symm ▸ hrel : R a v)
        (List.forall₂_same.mpr (fun x _ => hrefl x))
    | succ n =>
      rw [List.getElem?_cons_succ] at hget
      rw [List.set_cons_succ]
      exact .cons (hrefl a) (ih n e v hget hrel)

theorem setKey_mutatesOnly {owned : List (Option String)}
    (P : List (String × List ProxyEntry)) (k : String)
    (lst2 : List ProxyEntry) :
    ∀ lst, alookup k P = some lst →
      List.Forall₂
        (fun e e2 => e2 = e ∨ (e.address.isSome ∧ e.address ∈ owned))
        lst lst2 →
      mutatesOnlyAddresses owned P (setKey k lst2 P) := by
  induction P with
  | nil =>
    intro lst h
    cases h
  | cons kv rest ih =>
    intro lst hl hrel
    rw [mutatesOnlyAddresses]
    by_cases hk : kv.1 = k
    · simp only [alookup, if_pos hk] at hl
      injection hl with hl2
      simp only [setKey, if_pos hk]
      refine .cons ⟨hk, hl2 ▸ hrel⟩ ?_
      have hrefl := mutatesOnlyAddresses_refl owned rest
      rw [mutatesOnlyAddresses] at hrefl
      exact hrefl
    · simp only [alookup, if_neg hk] at hl
      simp only [setKey, if_neg hk]
      refine .cons ⟨rfl, List.forall₂_same.mpr (fun e _ => Or.inl rfl)⟩ ?_
      have := ih lst hl hrel
      rw [mutatesOnlyAddresses] at this
      exact this

theorem addrMatches_spec {e : ProxyEntry} {address : Option String}
    (h : addrMatches e address = true) :
    e.address = address ∧ e.address.isSome := by
  rcases he : e.address with _ | b
  · rcases ha : address with _ | a
    · simp only [addrMatches, he, ha] at h
      simp at h
    · simp only [addrMatches, he, ha] at h
      simp at h
  · rcases ha : address with _ | a
    · simp only [addrMatches, he, ha] at h
      simp at h
    · simp only [addrMatches, he, ha, beq_iff_eq] at h
      rw [h]
      exact ⟨rfl, rfl⟩

theorem updateProxy_ok_mutatesOnly {owned : List (Option String)}
    {nf : ZosNetworkFileData} {pkg contract address : Option String}
    {fn : ProxyEntry → ProxyEntry} {nf2 : ZosNetworkFileData}
    (h : updateProxy nf pkg contract address fn = .ok nf2)
    (hmem : address ∈ owned) :
    mutatesOnlyAddresses owned nf.proxies nf2.proxies := by
  rcases hb : alookup (toContractFullName pkg contract) nf.proxies
      with _ | lst
  · simp only [updateProxy, indexOfProxy, hb] at h
    exact Except.noConfusion h
  · rcases hf : lst.findIdx? (fun e => addrMatches e address) with _ | i
    · simp only [updateProxy, indexOfProxy, hb, hf] at h
      exact Except.noConfusion h
    · obtain ⟨e, hget, hmatch⟩ := findIdx?_some_spec hf
      obtain ⟨haddr, hsome⟩ := addrMatches_spec hmatch
      simp only [updateProxy, indexOfProxy, hb, hf, proxiesOf, hb,
        Option.getD_some, Except.ok.injEq] at h
      rw [← h]
      refine setKey_mutatesOnly nf.proxies (toContractFullName pkg contract)
        _ lst hb ?_
      have hgd : lst.getD i {} = e := by
        rw [List.getD_eq_getElem?_getD, hget]
        rfl
      rw [hgd]
      refine @forall₂_set_of_rel ProxyEntry
        (fun e e2 => e2 = e ∨ (e.address.isSome ∧ e.address ∈ owned))
        (fun x => Or.inl rfl) lst i e _ hget ?_
      exact Or.inr ⟨hsome, haddr ▸ hmem⟩

theorem foldl_batch_calls (callsFor : FlatProxy → List BackendCall)
    (fnFor : FlatProxy → ProxyEntry → ProxyEntry) :
    ∀ (proxies : List FlatProxy) (st : BatchState),
      (proxies.foldl (proxyBatchStep callsFor fnFor) st).calls
        = st.calls ++ proxies.flatMap callsFor := by
  intro proxies
  induction proxies with
  | nil =>
    intro st
    simp
  | cons p tl ih =>
    intro st
    rw [List.foldl_cons, ih]
    simp [proxyBatchStep, List.flatMap_cons]

theorem foldl_batch_mutatesOnly (callsFor : FlatProxy → List BackendCall)
    (fnFor : FlatProxy → ProxyEntry → ProxyEntry)
    (owned : List (Option String)) :
    ∀ (proxies : List FlatProxy) (st : BatchState),
      (∀ p ∈ proxies, p.address ∈ owned) →
      mutatesOnlyAddresses owned st.nf.proxies
        ((proxies.foldl (proxyBatchStep callsFor fnFor) st)).nf.proxies := by
  intro proxies
  induction proxies with
  | nil =>
    intro st _
    exact mutatesOnlyAddresses_refl owned _
  | cons p tl ih =>
    intro st hmem
    rw [List.foldl_cons]
    refine mutatesOnlyAddresses_trans ?_
      (ih _ (fun q hq => hmem q (List.mem_cons_of_mem _ hq)))
    rcases hup : updateProxy st.nf p.package p.contract p.address (fnFor p)
        with err | nf2
    · have heq : (proxyBatchStep callsFor fnFor st p).nf = st.nf := by
        rw [proxyBatchStep, applyUpdateProxy, hup]
      rw [heq]
      exact mutatesOnlyAddresses_refl owned _
    · have heq : (proxyBatchStep callsFor fnFor st p).nf = nf2 := by
        rw [proxyBatchStep, applyUpdateProxy, hup]
      rw [heq]
      exact updateProxy_ok_mutatesOnly hup (hmem p (List.mem_cons_self _ _))

theorem forall₂_entry_convert {env : Env} {expected : Option String}
    {owned : List (Option String)} {l l2 : List ProxyEntry}
    (h : List.Forall₂
      (fun e e2 => e2 = e ∨ (e.address.isSome ∧ e.address ∈ owned)) l l2)
    (hsafe : ∀ e ∈ l, e.address ∈ owned → ¬unownedEntry env expected e) :
    List.Forall₂ (fun e e2 => e2 = e ∨ ¬unownedEntry env expected e) l l2 := by
  induction h with
  | nil => exact .nil
  | cons hr htl ih =>
    refine .cons ?_ (ih (fun e he ho => hsafe e (List.mem_cons_of_mem _ he) ho))
    rcases hr with h1 | ⟨_, h3⟩
    · exact Or.inl h1
    · exact Or.inr (hsafe _ (List.mem_cons_self _ _) h3)

theorem mutatesOnly_to_preserves {env : Env} {expected : Option String}
    {owned : List (Option String)}
    {P Q : List (String × List ProxyEntry)}
    (h : mutatesOnlyAddresses owned P Q)
    (hsafe : ∀ e ∈ P.flatMap (fun kv => kv.2), e.address ∈ owned →
      ¬unownedEntry env expected e) :
    preservesUnowned env expected P Q := by
  rw [mutatesOnlyAddresses] at h
  rw [preservesUnowned]
  induction h with
  | nil => exact .nil
  | cons hr htl ih =>
    refine .cons ⟨hr.1, forall₂_entry_convert hr.2 ?_⟩ (ih ?_)
    · intro e he ho
      exact hsafe e (List.mem_flatMap.mpr ⟨_, List.mem_cons_self _ _, he⟩) ho
    · intro e he ho
      obtain ⟨kv, hkv, he2⟩ := List.mem_flatMap.mp he
      exact hsafe e
        (List.mem_flatMap.mpr ⟨kv, List.mem_cons_of_mem _ hkv, he2⟩) ho

theorem preservesUnowned_refl (env : Env) (expected : Option String)
    (P : List (String × List ProxyEntry)) :
    preservesUnowned env expected P P := by
  rw [preservesUnowned]
  refine List.forall₂_same.mpr (fun kv _ => ⟨rfl, ?_⟩)
  exact List.forall₂_same.mpr (fun e _ => Or.inl rfl)

/-- C2 counterexample: with two recorded proxies of one contract sharing an
address, `setProxiesAdmin` skips the unowned one in its fetch, but the
record update (which locates a proxy by full name and address) overwrites
the unowned entry: the entry recording admin `0xBAD` — which differs from
the expected admin `0xGOOD` — ends up mutated to admin `0xNEW`. -/
theorem setProxiesAdmin_unowned_mutated :
    unownedEntry testEnv (expectedOwnerOf c2dup none)
      { address := some ("0xAAA"), admin := some ("0xBAD") }
    ∧ alookup ("proj/Foo")
        (setProxiesAdmin c2dup (some ("proj")) (some ("Foo")) none
          ("0xNEW")).nf.proxies
      = some [{ address := some ("0xAAA"), admin := some ("0xNEW") },
              { address := some ("0xAAA"), admin := some ("0xGOOD") }] :=
  ⟨⟨("0xBAD"), ("0xGOOD"), rfl, rfl, by decide⟩, by decide⟩

/-- C2 amended: provided no two recorded proxies share an address,
`setProxiesAdmin` and `upgradeProxies` never mutate a proxy whose recorded
admin differs (after checksum normalisation) from the expected admin: no
backend call targets it and its record entry survives unchanged; a proxy
with no recorded admin field is treated as owned and included. -/
theorem batch_operations_skip_unowned (c : Controller)
    (pn ca pa : Option String) (newAdmin : String)
    (hnd : distinctProxyAddresses c.networkFile) :
    (∀ p ∈ getProxies c.networkFile (fetchFilter c pn ca pa),
      p.admin = none → p ∈ fetchOwnedProxies c pn ca pa none)
    ∧ (∀ p ∈ fetchOwnedProxies c pn ca pa none,
        ownedFilterPred c.env (expectedOwnerOf c none) p = true)
    ∧ (∀ q ∈ allProxyEntries c.networkFile,
        unownedEntry c.env (expectedOwnerOf c none) q →
          (∀ call ∈ (setProxiesAdmin c pn ca pa newAdmin).calls,
            call ≠ BackendCall.changeProxyAdmin q.address newAdmin)
          ∧ (∀ call ∈ (upgradeProxies c pn ca pa).calls,
            call ≠ BackendCall.upgradeProxy q.address))
    ∧ preservesUnowned c.env (expectedOwnerOf c none) c.networkFile.proxies
        (setProxiesAdmin c pn ca pa newAdmin).nf.proxies
    ∧ preservesUnowned c.env (expectedOwnerOf c none) c.networkFile.proxies
        (upgradeProxies c pn ca pa).nf.proxies := by
  have hsafe : ∀ e ∈ c.networkFile.proxies.flatMap (fun kv => kv.2),
      e.address ∈ (fetchOwnedProxies c pn ca pa none).map
        (fun p => p.address) →
      ¬unownedEntry c.env (expectedOwnerOf c none) e := by
    intro e he hmem hun
    obtain ⟨p, hp, hpa⟩ := List.mem_map.mp hmem
    exact fetched_address_not_unowned hnd he hun hp hpa
  refine ⟨?_, fun p hp => (mem_fetchOwnedProxies hp).2, ?_, ?_, ?_⟩
  · intro p hp hadmin
    have hne : (getProxies c.networkFile (fetchFilter c pn ca pa)).isEmpty
        = false := List.isEmpty_eq_false.mpr (List.ne_nil_of_mem hp)
    rw [fetchOwnedProxies, if_neg (by simp [hne])]
    refine List.mem_filter.mpr ⟨hp, ?_⟩
    rw [ownedFilterPred, hadmin]
    simp
  · intro q hq hun
    constructor
    · intro call hc heq
      by_cases hemp : (fetchOwnedProxies c pn ca pa none).isEmpty = true
      · rw [setProxiesAdmin, if_pos hemp] at hc
        cases hc
      · rw [setProxiesAdmin, if_neg hemp, runProxyBatch,
          foldl_batch_calls] at hc
        simp only [List.nil_append, List.mem_flatMap,
          List.mem_singleton] at hc
        obtain ⟨p, hp, hcall⟩ := hc
        rw [hcall] at heq
        have : p.address = q.address := by
          injection heq
        exact fetched_address_not_unowned hnd hq hun hp this
    · intro call hc heq
      by_cases hemp : (fetchOwnedProxies c pn ca pa none).isEmpty = true
      · rw [upgradeProxies, if_pos hemp] at hc
        cases hc
      · rw [upgradeProxies, if_neg hemp, runProxyBatch,
          foldl_batch_calls] at hc
        simp only [List.nil_append, List.mem_flatMap] at hc
        obtain ⟨p, hp, hcall⟩ := hc
        have hpq : call = BackendCall.upgradeProxy p.address := by
          rcases hcond : (upgradeProxyNewImplementation c p).2 with _ | _
          · rw [hcond] at hcall
            simp at hcall
          · rw [hcond] at hcall
            simpa using hcall
        rw [hpq] at heq
        have : p.address = q.address := by
          injection heq
        exact fetched_address_not_unowned hnd hq hun hp this
  · by_cases hemp : (fetchOwnedProxies c pn ca pa none).isEmpty = true
    · rw [setProxiesAdmin, if_pos hemp]
      exact preservesUnowned_refl _ _ _
    · rw [setProxiesAdmin, if_neg hemp, runProxyBatch]
      refine mutatesOnly_to_preserves ?_ hsafe
      exact foldl_batch_mutatesOnly _ _
        ((fetchOwnedProxies c pn ca pa none).map (fun p => p.address)) _
        { nf := c.networkFile }
        (fun p hp => List.mem_map_of_mem (fun q => q.address) hp)
  · by_cases hemp : (fetchOwnedProxies c pn ca pa none).isEmpty = true
    · rw [upgradeProxies, if_pos hemp]
      exact preservesUnowned_refl _ _ _
    · rw [upgradeProxies, if_neg hemp, runProxyBatch]
      refine mutatesOnly_to_preserves ?_ hsafe
      exact foldl_batch_mutatesOnly _ _
        ((fetchOwnedProxies c pn ca pa none).map (fun p => p.address)) _
        { nf := c.networkFile }
        (fun p hp => List.mem_map_of_mem (fun q => q.address) hp)

/-- Witness for C2 at a concrete record with one owned and one unowned
proxy at distinct addresses: the batch admin change preserves every entry
that was unowned. -/
theorem batch_operations_skip_unowned_witness :
    preservesUnowned
      (({ env := testEnv, packageFile := { name := ("proj"), version := ("1.0.0") }, networkFile := { proxies := [(("proj/Foo"), [{ address := some ("0xAAA"), admin := some ("0xBAD") }, { address := some ("0xBBB"), admin := some ("0xGOOD") }])], proxyAdmin := some ("0xGOOD") } } : Controller)).env
      (expectedOwnerOf (({ env := testEnv, packageFile := { name := ("proj"), version := ("1.0.0") }, networkFile := { proxies := [(("proj/Foo"), [{ address := some ("0xAAA"), admin := some ("0xBAD") }, { address := some ("0xBBB"), admin := some ("0xGOOD") }])], proxyAdmin := some ("0xGOOD") } } : Controller)) none)
      (({ env := testEnv, packageFile := { name := ("proj"), version := ("1.0.0") }, networkFile := { proxies := [(("proj/Foo"), [{ address := some ("0xAAA"), admin := some ("0xBAD") }, { address := some ("0xBBB"), admin := some ("0xGOOD") }])], proxyAdmin := some ("0xGOOD") } } : Controller)).networkFile.proxies
      (setProxiesAdmin (({ env := testEnv, packageFile := { name := ("proj"), version := ("1.0.0") }, networkFile := { proxies := [(("proj/Foo"), [{ address := some ("0xAAA"), admin := some ("0xBAD") }, { address := some ("0xBBB"), admin := some ("0xGOOD") }])], proxyAdmin := some ("0xGOOD") } } : Controller)) none none none ("0xNEW")).nf.proxies :=
  (batch_operations_skip_unowned ({ env := testEnv, packageFile := { name := ("proj"), version := ("1.0.0") }, networkFile := { proxies := [(("proj/Foo"), [{ address := some ("0xAAA"), admin := some ("0xBAD") }, { address := some ("0xBBB"), admin := some ("0xGOOD") }])], proxyAdmin := some ("0xGOOD") } }) none none none ("0xNEW")
      (by unfold distinctProxyAddresses; decide)).2.2.2.1

/-- C10: the owned-proxies fetch behind `setProxiesAdmin`/`upgradeProxies`
pins the kind filter to "upgradeable" (a proxy without a recorded kind
defaults to upgradeable), so a proxy recorded as "minimal" is never
fetched, and every backend call of either batch operation targets a
fetched proxy. -/
theorem batch_operations_only_upgradeable (c : Controller)
    (pn ca pa oa : Option String) (newAdmin : String) :
    (∀ p ∈ fetchOwnedProxies c pn ca pa oa, p.kind = ProxyType.Upgradeable)
    ∧ (∀ fullname lst e, (fullname, lst) ∈ c.networkFile.proxies → e ∈ lst →
        e.kind = some ProxyType.Minimal →
        flattenProxy fullname e ∉ fetchOwnedProxies c pn ca pa oa)
    ∧ (∀ fullname e, e.kind = none →
        (flattenProxy fullname e).kind = ProxyType.Upgradeable)
    ∧ (∀ call ∈ (setProxiesAdmin c pn ca pa newAdmin).calls,
        ∃ p ∈ fetchOwnedProxies c pn ca pa none,
          call = BackendCall.changeProxyAdmin p.address newAdmin)
    ∧ (∀ call ∈ (upgradeProxies c pn ca pa).calls,
        ∃ p ∈ fetchOwnedProxies c pn ca pa none,
          call = BackendCall.upgradeProxy p.address) := by
  have hkind : ∀ p ∈ fetchOwnedProxies c pn ca pa oa,
      p.kind = ProxyType.Upgradeable := by
    intro p hp
    obtain ⟨hg, _⟩ := mem_fetchOwnedProxies hp
    obtain ⟨fullname, lst, e, _, _, hpe, hpred⟩ := mem_getProxies_source hg
    rw [proxyFilterPred] at hpred
    simp only [Bool.and_eq_true] at hpred
    have h2 : (p.kind == ProxyType.Upgradeable) = true := by
      simpa [fetchFilter] using hpred.2
    simpa using h2
  refine ⟨hkind, ?_, ?_, ?_, ?_⟩
  · intro fullname lst e _ _ hmin hmem
    have h3 : ProxyType.Minimal = ProxyType.Upgradeable := by
      simpa [flattenProxy, hmin] using hkind _ hmem
    exact ProxyType.noConfusion h3
  · intro fullname e hk
    simp [flattenProxy, hk]
  · intro call hc
    by_cases hemp : (fetchOwnedProxies c pn ca pa none).isEmpty = true
    · rw [setProxiesAdmin, if_pos hemp] at hc
      cases hc
    · rw [setProxiesAdmin, if_neg hemp, runProxyBatch,
        foldl_batch_calls] at hc
      simp only [List.nil_append, List.mem_flatMap, List.mem_singleton] at hc
      obtain ⟨p, hp, hcall⟩ := hc
      exact ⟨p, hp, hcall⟩
  · intro call hc
    by_cases hemp : (fetchOwnedProxies c pn ca pa none).isEmpty = true
    · rw [upgradeProxies, if_pos hemp] at hc
      cases hc
    · rw [upgradeProxies, if_neg hemp, runProxyBatch,
        foldl_batch_calls] at hc
      simp only [List.nil_append, List.mem_flatMap] at hc
      obtain ⟨p, hp, hcall⟩ := hc
      rcases hcond : (upgradeProxyNewImplementation c p).2 with _ | _
      · rw [hcond] at hcall
        simp at hcall
      · rw [hcond] at hcall
        exact ⟨p, hp, by simpa using hcall⟩

/-- Witness for C10: the concrete minimal proxy of `c10rec` is not fetched
by the owned-proxies query. -/
theorem batch_operations_only_upgradeable_witness :
    flattenProxy ("proj/Foo")
        { address := some ("0xAAA"), kind := some ProxyType.Minimal }
      ∉ fetchOwnedProxies c10rec none none none none :=
  (batch_operations_only_upgradeable c10rec none none none none ("0xN")).2.1
    ("proj/Foo")
    [{ address := some ("0xAAA"), kind := some ProxyType.Minimal },
     { address := some ("0xBBB") }]
    { address := some ("0xAAA"), kind := some ProxyType.Minimal }
    (by decide) (by decide) rfl

/-- Witness for C1: with an empty deployment record, the manifest contract
`Foo` satisfies the delta iff condition. -/
theorem push_delta_correct_witness :
    (("Foo"),
        ({ env := testEnv
           packageFile := { name := ("proj"), version := ("1.0.0")
                            contracts := [(("Foo"), ("Foo"))] }
           networkFile := {} } : Controller).env.getFromLocal ("Foo"))
      ∈ contractsListForPush
          { env := testEnv
            packageFile := { name := ("proj"), version := ("1.0.0")
                             contracts := [(("Foo"), ("Foo"))] }
            networkFile := {} } true []
    ↔ specContractNeedsPush
        { env := testEnv
          packageFile := { name := ("proj"), version := ("1.0.0")
                           contracts := [(("Foo"), ("Foo"))] }
          networkFile := {} } [] ("Foo") ("Foo") :=
  push_delta_correct _ [] ("Foo") ("Foo") (by decide)

/-- Witness for C6: updating a proxy that is absent from the record throws
the NotFound error. -/
theorem updateProxy_semantics_witness :
    updateProxy ({} : ZosNetworkFileData) (some ("proj")) (some ("Foo"))
        (some ("0xA")) (fun e => e)
      = .error ("Proxy " ++ toContractFullName (some ("proj")) (some ("Foo"))
          ++ " at " ++ (some ("0xA")).getD ("undefined")
          ++ " not found in network file") :=
  (updateProxy_semantics {} (some ("proj")) (some ("Foo")) (some ("0xA"))
    (fun e => e)).1 (by decide)

/-- Witness for C8: removing the single proxy of a full name deletes its
key from the proxies map. -/
theorem removeProxy_semantics_witness :
    alookup (toContractFullName (some ("proj")) (some ("Foo")))
        (removeProxy
          { proxies := [(("proj/Foo"), [{ address := some ("0xA") }])] }
          ("proj") ("Foo") ("0xA")).proxies = none :=
  (removeProxy_semantics
      { proxies := [(("proj/Foo"), [{ address := some ("0xA") }])] }
      ("proj") ("Foo") ("0xA")).2
    { address := some ("0xA") } (by decide) (by decide)

end Zos
